import Mathlib

/-!
Shallow embedding of the autograding test runner (src/runner.ts).

JavaScript numbers are modelled as rationals; a number that may be NaN is
modelled as an Option over the rationals, with none playing the role of NaN
(NaN is absorbing for addition, never strictly-equal to anything, and fails
every ordering comparison, which is exactly how the matches below treat none).
Strings are modelled as lists of characters where character-level structure
matters (the score regular expression) and as String otherwise.
-/

/-- A JavaScript number that may be NaN: none stands for NaN. -/
abbrev JsNum := Option ℚ

/-- Embeds the JavaScript whitespace class backslash-s: space, tab, line feed,
vertical tab, form feed, carriage return, NBSP, and the Unicode space
code points. -/
def isJsSpace (c : Char) : Bool :=
  c.toNat = 32 || c.toNat = 9 || c.toNat = 10 || c.toNat = 11 || c.toNat = 12 || c.toNat = 13 ||
  c.toNat = 160 || c.toNat = 0x1680 || (0x2000 ≤ c.toNat && c.toNat ≤ 0x200A) ||
  c.toNat = 0x2028 || c.toNat = 0x2029 || c.toNat = 0x202F || c.toNat = 0x205F ||
  c.toNat = 0x3000 || c.toNat = 0xFEFF

/-- Embeds the regex character class of digits and the dot, the class captured
by the score marker pattern in runCommand (src/runner.ts line 155). -/
def isDigitOrDot (c : Char) : Bool := c.isDigit || c = '.'

/-- The literal part of the score marker pattern in runCommand. -/
def litMarker : List Char := "[overall score: ".toList

/-- The tail of litMarker after its opening bracket. -/
def litRest : List Char := "overall score: ".toList

/-- Matches a literal character sequence at the start of a string, returning
the remainder on success. -/
def dropLit : List Char → List Char → Option (List Char)
  | [], s => some s
  | _ :: _, [] => none
  | l :: ls, c :: cs => if c = l then dropLit ls cs else none

/-- One attempt of the score regular expression at the start of a buffer:
the literal marker text, then a greedy run of digits and dots (the capture),
then a closing bracket, then only whitespace up to the end of the buffer
(the backslash-s-star-dollar trailing anchor). -/
def matchAt (s : List Char) : Option (List Char) :=
  match dropLit litMarker s with
  | none => none
  | some rest =>
    match rest.dropWhile isDigitOrDot with
    | ']' :: rest2 =>
        if rest2.all isJsSpace then some (rest.takeWhile isDigitOrDot) else none
    | _ => none

/-- Embeds regexp.exec on the captured buffer (src/runner.ts line 156): the
leftmost position at which the score pattern matches, returning its capture. -/
def execScore : List Char → Option (List Char)
  | [] => none
  | c :: rest =>
    match matchAt (c :: rest) with
    | some d => some d
    | none => execScore rest

/-- Value of a digit string read in base 10. -/
def digitsVal (l : List Char) : ℕ := l.foldl (fun a c => 10 * a + (c.toNat - 48)) 0

/-- Embeds JavaScript parseFloat restricted to strings over digits and dots,
the only strings the score capture can produce: the longest valid decimal
prefix is parsed, and a string with no leading digits and no digits after a
leading dot parses to NaN (none). -/
def parseFloatDD (s : List Char) : Option ℚ :=
  let ip := s.takeWhile Char.isDigit
  match s.dropWhile Char.isDigit with
  | '.' :: rest2 =>
      let fp := rest2.takeWhile Char.isDigit
      if ip.isEmpty && fp.isEmpty then none
      else some ((digitsVal ip : ℚ) + (digitsVal fp : ℚ) / (10 : ℚ) ^ fp.length)
  | _ => if ip.isEmpty then none else some ((digitsVal ip : ℚ))

/-- Embeds the scoring tail of runCommand (src/runner.ts lines 155-160):
parse the capture when the regular expression matches, otherwise score 0. -/
def runCommandScore (output : List Char) : JsNum :=
  match execScore output with
  | some d => parseFloatDD d
  | none => some 0

/-- The comparison modes declared for a test (src/runner.ts line 11). -/
inductive TestComparison where
  | exact
  | included
  | regexCmp
deriving DecidableEq

/-- Embeds the Test interface (src/runner.ts lines 13-22); optional fields
are Options and numeric fields are rationals. -/
structure Test where
  name : String
  setup : String
  run : String
  input : Option String
  output : Option String
  timeout : Option ℚ
  points : Option ℚ
  comparison : TestComparison

/-- Errors the process runner can raise: the timeout error carrying the
configured budget (src/runner.ts line 69), the non-zero-exit error carrying
exit code and signal (line 80), and a propagated spawn error (line 88). -/
inductive RunError where
  | timeoutError (ms : ℚ)
  | exitError (code : Option ℤ) (signal : Option String)
  | spawnError (msg : String)
deriving DecidableEq

/-- Renders an Option Int the way JavaScript template interpolation renders a
nullable exit code. -/
def optIntStr : Option ℤ → String
  | none => "null"
  | some i => toString i

/-- Renders an Option String the way JavaScript template interpolation renders
a nullable signal. -/
def optStrStr : Option String → String
  | none => "null"
  | some s => s

/-- The message carried by each runner error, following the template strings
of src/runner.ts lines 69 and 80. -/
def RunError.message : RunError → String
  | RunError.timeoutError ms => s!"Setup timed out in {ms} milliseconds"
  | RunError.exitError code signal =>
      let c := optIntStr code
      let s := optStrStr signal
      s!"Error: Exit with code: {c} and signal: {s}"
  | RunError.spawnError msg => msg

/-- The asynchronous events racing inside waitForExit: the timer firing, the
child exit notification, and the child error notification. -/
inductive WFEvent where
  | timerFires
  | exited (code : Option ℤ) (signal : Option String)
  | errored (msg : String)

/-- The state of one waitForExit invocation (src/runner.ts lines 62-91):
the timedOut flag, whether the timer is still armed (not cleared and not yet
fired), the once-only flags of the two child listeners, how the promise has
settled (none while pending), and whether the process tree was killed. -/
structure WaitState where
  timedOut : Bool
  timerArmed : Bool
  exitSeen : Bool
  errorSeen : Bool
  settled : Option (Except RunError Unit)
  killed : Bool

/-- The state of waitForExit just after the promise executor runs. -/
def initWait : WaitState :=
  { timedOut := false, timerArmed := true, exitSeen := false, errorSeen := false,
    settled := none, killed := false }

/-- Settling a promise: the first resolution or rejection wins and later
attempts are ignored. -/
def settle (st : WaitState) (r : Except RunError Unit) : WaitState :=
  match st.settled with
  | some _ => st
  | none => { st with settled := some r }

/-- One event step of waitForExit. The timer callback (lines 67-71) sets
timedOut, rejects with the timeout error and kills the process tree. The exit
listener (lines 73-82) runs once, returns at once when timedOut is set,
otherwise clears the timer and resolves on exit code 0 or rejects with the
exit error. The error listener (lines 84-89) runs once, returns at once when
timedOut is set, otherwise clears the timer and rejects with the error. -/
def wfStep (tm : ℚ) (st : WaitState) : WFEvent → WaitState
  | WFEvent.timerFires =>
    if st.timerArmed then
      let st1 := { st with timedOut := true, timerArmed := false }
      let st2 := settle st1 (Except.error (RunError.timeoutError tm))
      { st2 with killed := true }
    else st
  | WFEvent.exited code signal =>
    if st.exitSeen then st
    else
      let st1 := { st with exitSeen := true }
      if st1.timedOut then st1
      else
        let st2 := { st1 with timerArmed := false }
        if code = some 0 then settle st2 (Except.ok ())
        else settle st2 (Except.error (RunError.exitError code signal))
  | WFEvent.errored msg =>
    if st.errorSeen then st
    else
      let st1 := { st with errorSeen := true }
      if st1.timedOut then st1
      else settle { st1 with timerArmed := false } (Except.error (RunError.spawnError msg))

/-- Embeds waitForExit (src/runner.ts lines 62-91) as the state reached after
processing a trace of asynchronous events in arrival order. -/
def waitForExit (tm : ℚ) (evs : List WFEvent) : WaitState :=
  evs.foldl (wfStep tm) initWait

/-- The value of the awaited runCommand call as a function of how its
waitForExit promise settled: pending waits give no value, a resolution
continues into the scoring of the captured buffer (lines 153-160), and a
rejection propagates the runner error. -/
def runCommandResult (output : List Char) (st : WaitState) : Option (Except RunError JsNum) :=
  match st.settled with
  | none => none
  | some (Except.ok _) => some (Except.ok (runCommandScore output))
  | some (Except.error e) => some (Except.error e)

/-- What runCommand does with the child standard input stream. -/
inductive StdinAction where
  | writeThenClose (s : String)
  | closedImmediately
  | leftOpen
deriving DecidableEq

/-- Embeds the stdin handling of runCommand (src/runner.ts lines 147-151):
a defined, non-empty input is written and the stream is closed; otherwise the
code does nothing and the stream is left open. -/
def stdinAction (t : Test) : StdinAction :=
  match t.input with
  | some s => if s = "" then StdinAction.leftOpen else StdinAction.writeThenClose s
  | none => StdinAction.leftOpen

/-- Embeds the timeout resolution of run (src/runner.ts line 165): a falsy
declared timeout (absent or zero minutes) falls back to 1 minute, the result
is converted to milliseconds, and a falsy product falls back to 30000. -/
def resolveTimeout (t : Option ℚ) : ℚ :=
  let t1 := match t with
    | none => 1
    | some v => if v = 0 then 1 else v
  let ms := t1 * 60 * 1000
  if ms = 0 then 30000 else ms

/-- Embeds the elapsed-time conversion of run (src/runner.ts line 170):
process.hrtime gives whole seconds and nanoseconds, floored to milliseconds. -/
def elapsedMs (s ns : ℕ) : ℤ := Int.floor ((s * 1000 : ℚ) + (ns : ℚ) / 1000000)

/-- Embeds run (src/runner.ts lines 163-172) as the pair of timeouts handed to
the two phases: the setup phase receives the resolved budget; when setup
succeeds, the main phase receives the budget minus the floored elapsed setup
time, unmodified; when setup fails, the main phase is never invoked. -/
def runPhases (t : Test) (setupResult : Except RunError Unit) (s ns : ℕ) : ℚ × Option ℚ :=
  let budget := resolveTimeout t.timeout
  match setupResult with
  | Except.error _ => (budget, none)
  | Except.ok _ => (budget, some (budget - (elapsedMs s ns : ℚ)))

/-- The accumulator of runAll (src/runner.ts lines 174-234): the running
points total (a JavaScript number, so possibly NaN), the available points,
and the failed flag. -/
structure Report where
  points : JsNum
  availablePoints : ℚ
  failed : Bool

/-- The accumulator at the top of runAll: zero points, zero available,
nothing failed. -/
def initReport : Report := { points := some 0, availablePoints := 0, failed := false }

/-- JavaScript addition on possibly-NaN numbers: NaN is absorbing. -/
def addJs : JsNum → JsNum → JsNum
  | some a, some b => some (a + b)
  | _, _ => none

/-- Embeds the strict equality test_result === test.points of src/runner.ts
line 197: false whenever the points are undefined or the result is NaN. -/
def scoreEqPointsB : JsNum → Option ℚ → Bool
  | some s, some p => decide (s = p)
  | _, _ => false

/-- Embeds the guarded accumulation of line 188-190: availablePoints grows by
test.points only when that value is truthy (defined and non-zero). -/
def addAvailable (t : Test) (a : ℚ) : ℚ :=
  match t.points with
  | some p => if p = 0 then a else a + p
  | none => a

/-- The per-test console outcome: the green check, the red cross on a score
mismatch, or the red cross plus core.setFailed with the caught error
message. -/
inductive TestDisplay where
  | passed (name : String)
  | failedMismatch (name : String)
  | failedError (name : String) (msg : String)
deriving DecidableEq

/-- One iteration of the runAll loop (src/runner.ts lines 186-210), taking the
outcome of the awaited run call as input. The try block first accumulates
availablePoints, then adds the score and compares it with the declared points;
the catch block marks the run failed and surfaces the error message. -/
def runTestStep (t : Test) (outcome : Except RunError JsNum) (st : Report) :
    Report × TestDisplay :=
  match outcome with
  | Except.error err =>
      ({ points := st.points, availablePoints := addAvailable t st.availablePoints,
         failed := true },
        TestDisplay.failedError t.name err.message)
  | Except.ok s =>
      if scoreEqPointsB s t.points then
        ({ points := addJs st.points s, availablePoints := addAvailable t st.availablePoints,
           failed := st.failed },
          TestDisplay.passed t.name)
      else
        ({ points := addJs st.points s, availablePoints := addAvailable t st.availablePoints,
           failed := true },
          TestDisplay.failedMismatch t.name)

/-- The runAll loop from a given accumulator over the remaining tests, each
paired with the outcome of its run call, collecting the console outcomes. -/
def runAllFrom : Report → List (Test × Except RunError JsNum) → Report × List TestDisplay
  | st, [] => (st, [])
  | st, (t, o) :: rest =>
      ((runAllFrom (runTestStep t o st).1 rest).1,
        (runTestStep t o st).2 :: (runAllFrom (runTestStep t o st).1 rest).2)

/-- Embeds runAll (src/runner.ts lines 174-234): the loop started from the
fresh accumulator. Its type records that no per-test error escapes: the
result is always a report and a display list. -/
def runAll (ts : List (Test × Except RunError JsNum)) : Report × List TestDisplay :=
  runAllFrom initReport ts

/-- The accumulator produced by the catch branch for a test whose run threw:
availablePoints was already accumulated inside the try, points is untouched,
and failed is set. -/
def errReport (t : Test) (r : Report) : Report :=
  { points := r.points, availablePoints := addAvailable t r.availablePoints, failed := true }

/-- Embeds Math.round on a possibly-NaN total (src/runner.ts line 227):
JavaScript rounds half toward positive infinity, and NaN stays NaN. -/
def jsRound (x : JsNum) : Option ℤ :=
  match x with
  | none => none
  | some q => some (Int.floor (q + 1 / 2))

/-- Embeds the final summary of runAll (src/runner.ts lines 227-233): the
Points line is produced only when the rounded total is strictly positive;
a NaN total fails that comparison and suppresses the summary. -/
def finalSummary (rep : Report) : Option String :=
  match jsRound rep.points with
  | none => none
  | some z =>
      if 0 < z then
        let a := rep.availablePoints
        some (s!"Points {z}/{a}")
      else none

/-- A concrete test declaring a one-minute timeout, used to evaluate the
budget arithmetic at specific inputs. -/
def sampleTest : Test :=
  { name := "sample", setup := "", run := "run", input := none, output := none,
    timeout := some 1, points := none, comparison := TestComparison.exact }

/-- A list all of whose elements satisfy a predicate cannot contain an element
that falsifies it. -/
lemma not_mem_of_all {l : List Char} {p : Char → Bool} (h : l.all p = true) {x : Char}
    (hx : p x = false) : x ∉ l := by
  intro hm
  have hpx := List.all_eq_true.mp h x hm
  rw [hx] at hpx
  exact Bool.false_ne_true hpx

/-- A takeWhile prefix satisfies its predicate everywhere. -/
lemma takeWhile_all (p : Char → Bool) (l : List Char) : (l.takeWhile p).all p = true := by
  induction l with
  | nil => rfl
  | cons c t ih =>
      rw [List.takeWhile_cons]
      cases hp : p c with
      | false => simp
      | true => simp [List.all_cons, hp, ih]

/-- takeWhile over a satisfying block followed by a falsifying element stops
exactly at the block. -/
lemma takeWhile_append_cons (p : Char → Bool) (c : Char) (t : List Char) (hc : p c = false)
    (d : List Char) (hall : d.all p = true) : (d ++ c :: t).takeWhile p = d := by
  induction d with
  | nil => simp [List.takeWhile_cons, hc]
  | cons a d2 ih =>
      simp only [List.all_cons, Bool.and_eq_true] at hall
      simp [List.takeWhile_cons, hall.1, ih hall.2]

/-- dropWhile over a satisfying block followed by a falsifying element drops
exactly the block. -/
lemma dropWhile_append_cons (p : Char → Bool) (c : Char) (t : List Char) (hc : p c = false)
    (d : List Char) (hall : d.all p = true) : (d ++ c :: t).dropWhile p = c :: t := by
  induction d with
  | nil => simp [List.dropWhile_cons, hc]
  | cons a d2 ih =>
      simp only [List.all_cons, Bool.and_eq_true] at hall
      simp [List.dropWhile_cons, hall.1, ih hall.2]

/-- dropLit succeeds on the literal followed by anything. -/
lemma dropLit_append (l : List Char) : ∀ s : List Char, dropLit l (l ++ s) = some s := by
  induction l with
  | nil => intro s; rfl
  | cons a l2 ih => intro s; simp [dropLit, ih s]

/-- A successful dropLit exposes the literal as a prefix. -/
lemma dropLit_some (l : List Char) : ∀ s r : List Char, dropLit l s = some r → s = l ++ r := by
  induction l with
  | nil =>
      intro s r h
      simp only [dropLit, Option.some.injEq] at h
      simp [h]
  | cons a l2 ih =>
      intro s r h
      cases s with
      | nil => simp [dropLit] at h
      | cons b s2 =>
          simp only [dropLit] at h
          split at h
          · next hba =>
              have hs := ih s2 r h
              simp [hba, hs]
          · exact absurd h (by simp)

/-- Completeness of matchAt: the marker literal, a digits-and-dots capture,
the closing bracket and a whitespace tail always match. -/
lemma matchAt_of (d ws : List Char) (hd : d.all isDigitOrDot = true)
    (hws : ws.all isJsSpace = true) :
    matchAt (litMarker ++ (d ++ (']' :: ws))) = some d := by
  have h1 := dropLit_append litMarker (d ++ (']' :: ws))
  have h2 := takeWhile_append_cons isDigitOrDot ']' ws (by decide) d hd
  have h3 := dropWhile_append_cons isDigitOrDot ']' ws (by decide) d hd
  simp [matchAt, h1, h2, h3, hws]

/-- Soundness of matchAt: any successful match decomposes the buffer into the
marker literal, the digits-and-dots capture, the closing bracket and a
whitespace tail. -/
lemma matchAt_some (s d : List Char) (h : matchAt s = some d) :
    ∃ ws, s = litMarker ++ (d ++ (']' :: ws)) ∧ d.all isDigitOrDot = true ∧
      ws.all isJsSpace = true := by
  unfold matchAt at h
  split at h
  · exact absurd h (by simp)
  · next rest hdl =>
      split at h
      · next rest2 hdw =>
          split at h
          · next hws =>
              simp only [Option.some.injEq] at h
              refine ⟨rest2, ?_, ?_, hws⟩
              · have hs := dropLit_some litMarker s rest hdl
                rw [hs, ← h]
                have hsplit := List.takeWhile_append_dropWhile (p := isDigitOrDot) (l := rest)
                rw [hdw] at hsplit
                exact congrArg (fun l => litMarker ++ l) hsplit.symm
              · rw [← h]; exact takeWhile_all isDigitOrDot rest
          · exact absurd h (by simp)
      · exact absurd h (by simp)

/-- matchAt on the empty buffer fails. -/
lemma matchAt_nil : matchAt [] = none := by decide

/-- A successful matchAt makes execScore succeed at that position. -/
lemma execScore_of_matchAt (s d : List Char) (h : matchAt s = some d) :
    execScore s = some d := by
  cases s with
  | nil => rw [matchAt_nil] at h; exact absurd h (by simp)
  | cons c rest => simp [execScore, h]

/-- Soundness of execScore: a successful scan decomposes the buffer into an
arbitrary prefix, the marker literal, the capture, the closing bracket and a
whitespace tail. -/
lemma execScore_some (s : List Char) : ∀ d : List Char, execScore s = some d →
    ∃ p ws, s = p ++ (litMarker ++ (d ++ (']' :: ws))) ∧ d.all isDigitOrDot = true ∧
      ws.all isJsSpace = true := by
  induction s with
  | nil => intro d h; simp [execScore] at h
  | cons c rest ih =>
      intro d h
      rw [execScore] at h
      cases hm : matchAt (c :: rest) with
      | some e =>
          rw [hm] at h
          simp only [Option.some.injEq] at h
          subst h
          obtain ⟨ws, hs, hd, hws⟩ := matchAt_some _ _ hm
          exact ⟨[], ws, by simpa using hs, hd, hws⟩
      | none =>
          rw [hm] at h
          obtain ⟨p, ws, hs, hd, hws⟩ := ih d h
          exact ⟨c :: p, ws, by simp [hs], hd, hws⟩

/-- The marker literal starts with its opening bracket. -/
lemma litMarker_eq : litMarker = '[' :: litRest := rfl

/-- Completeness of execScore: a buffer that ends in the marker followed only
by whitespace is scanned to exactly that marker's capture, no matter what
precedes it. The argument that no earlier position matches: a successful
match leaves only whitespace after its closing bracket, while everything at
or after the marker's opening bracket would then have to be whitespace. -/
lemma execScore_complete (p : List Char) : ∀ d ws : List Char,
    d.all isDigitOrDot = true → ws.all isJsSpace = true →
    execScore (p ++ (litMarker ++ (d ++ (']' :: ws)))) = some d := by
  induction p with
  | nil =>
      intro d ws hd hws
      rw [List.nil_append]
      exact execScore_of_matchAt _ _ (matchAt_of d ws hd hws)
  | cons c p2 ih =>
      intro d ws hd hws
      rw [List.cons_append, execScore]
      cases hm : matchAt (c :: (p2 ++ (litMarker ++ (d ++ (']' :: ws))))) with
      | none => exact ih d ws hd hws
      | some e =>
          exfalso
          obtain ⟨ws2, hs, he, hws2⟩ := matchAt_some _ _ hm
          rw [litMarker_eq, List.cons_append] at hs
          have hc : c = '[' := (List.cons.injEq _ _ _ _).mp hs |>.1
          have htl : p2 ++ (litMarker ++ (d ++ (']' :: ws)))
              = litRest ++ (e ++ (']' :: ws2)) := (List.cons.injEq _ _ _ _).mp hs |>.2
          have hmem : ('[' : Char) ∈ litRest ++ (e ++ (']' :: ws2)) := by
            rw [← htl]
            exact List.mem_append_right p2 (List.mem_append_left _ (by decide))
          rcases List.mem_append.mp hmem with h1 | h1
          · exact absurd h1 (by decide)
          rcases List.mem_append.mp h1 with h2 | h2
          · exact absurd h2 (not_mem_of_all he (by decide))
          rcases List.mem_cons.mp h2 with h3 | h3
          · exact absurd h3 (by decide)
          · exact absurd h3 (not_mem_of_all hws2 (by decide))

/-- Splitting two decompositions of the same list at an element occurring in
neither prefix: the prefixes and the suffixes agree. -/
lemma split_unique {x : Char} : ∀ (a b r s : List Char), x ∉ a → x ∉ b →
    a ++ x :: r = b ++ x :: s → a = b ∧ r = s := by
  intro a
  induction a with
  | nil =>
      intro b r s _ hb h
      cases b with
      | nil =>
          simp only [List.nil_append] at h
          exact ⟨rfl, (List.cons.injEq _ _ _ _).mp h |>.2⟩
      | cons y bs =>
          simp only [List.nil_append, List.cons_append] at h
          have hxy : x = y := (List.cons.injEq _ _ _ _).mp h |>.1
          exact absurd (hxy ▸ List.mem_cons_self y bs) hb
  | cons z as ih =>
      intro b r s ha hb h
      cases b with
      | nil =>
          simp only [List.cons_append, List.nil_append] at h
          have hzx : z = x := (List.cons.injEq _ _ _ _).mp h |>.1
          exact absurd (hzx ▸ List.mem_cons_self z as) (hzx ▸ ha)
      | cons y bs =>
          simp only [List.cons_append] at h
          have hzy : z = y := (List.cons.injEq _ _ _ _).mp h |>.1
          have htl := (List.cons.injEq _ _ _ _).mp h |>.2
          have hres := ih bs r s (fun hx => ha (List.mem_cons_of_mem z hx))
            (fun hx => hb (List.mem_cons_of_mem y hx)) htl
          exact ⟨by rw [hzy, hres.1], hres.2⟩

/-- The opening bracket occurs exactly once in the marker literal. -/
lemma litMarker_count : List.count '[' litMarker = 1 := by decide

/-- A buffer whose only marker is followed by trailing text containing a
non-whitespace character matches nowhere: the scan fails. -/
lemma execScore_mid_marker (pre d tail : List Char) (hd : d.all isDigitOrDot = true)
    (hpre : ('[' : Char) ∉ pre) (htail : ('[' : Char) ∉ tail)
    (hnws : tail.all isJsSpace = false) :
    execScore (pre ++ (litMarker ++ (d ++ (']' :: tail)))) = none := by
  cases hx : execScore (pre ++ (litMarker ++ (d ++ (']' :: tail)))) with
  | none => rfl
  | some e =>
      exfalso
      obtain ⟨p, ws2, heq, he, hws2⟩ := execScore_some _ e hx
      have hcnt := congrArg (fun l : List Char => List.count '[' l) heq
      simp only [List.count_append, List.count_cons] at hcnt
      rw [List.count_eq_zero.mpr hpre, List.count_eq_zero.mpr htail,
        List.count_eq_zero.mpr (not_mem_of_all hd (by decide)),
        List.count_eq_zero.mpr (not_mem_of_all he (by decide)),
        List.count_eq_zero.mpr (not_mem_of_all hws2 (by decide)),
        litMarker_count] at hcnt
      have hbr : ((']' : Char) == '[') = false := by decide
      rw [hbr] at hcnt
      simp only [Bool.false_eq_true, if_false] at hcnt
      have hp : ('[' : Char) ∉ p := List.count_eq_zero.mp (by omega)
      rw [litMarker_eq] at heq
      simp only [List.cons_append] at heq
      obtain ⟨hpp, hrr⟩ := split_unique pre p _ _ hpre hp heq
      have hde : d ++ (']' :: tail) = e ++ (']' :: ws2) := List.append_cancel_left hrr
      have htw := congrArg (List.takeWhile isDigitOrDot) hde
      rw [takeWhile_append_cons isDigitOrDot ']' tail (by decide) d hd,
        takeWhile_append_cons isDigitOrDot ']' ws2 (by decide) e he] at htw
      have hdw := congrArg (List.dropWhile isDigitOrDot) hde
      rw [dropWhile_append_cons isDigitOrDot ']' tail (by decide) d hd,
        dropWhile_append_cons isDigitOrDot ']' ws2 (by decide) e he] at hdw
      have htt : tail = ws2 := (List.cons.injEq _ _ _ _).mp hdw |>.2
      rw [← htt] at hws2
      rw [hws2] at hnws
      exact absurd hnws (by decide)

/-- Once waitForExit has timed out, settled and killed, any further events
leave the outcome untouched: the timeout rejection is final. -/
lemma wf_preserve_timeout (tm : ℚ) (r : Except RunError Unit) :
    ∀ (evs : List WFEvent) (st : WaitState), st.timedOut = true → st.settled = some r →
      st.killed = true →
      (evs.foldl (wfStep tm) st).timedOut = true ∧
      (evs.foldl (wfStep tm) st).settled = some r ∧
      (evs.foldl (wfStep tm) st).killed = true := by
  intro evs
  induction evs with
  | nil => intro st h1 h2 h3; exact ⟨h1, h2, h3⟩
  | cons e rest ih =>
      intro st h1 h2 h3
      rw [List.foldl_cons]
      have hstep : (wfStep tm st e).timedOut = true ∧ (wfStep tm st e).settled = some r ∧
          (wfStep tm st e).killed = true := by
        cases e with
        | timerFires =>
            cases hb : st.timerArmed with
            | true => simp [wfStep, hb, settle, h1, h2]
            | false => simp [wfStep, hb, h1, h2, h3]
        | exited code sig =>
            cases hb : st.exitSeen with
            | true => simp [wfStep, hb, h1, h2, h3]
            | false => simp [wfStep, hb, h1, h2, h3]
        | errored msg =>
            cases hb : st.errorSeen with
            | true => simp [wfStep, hb, h1, h2, h3]
            | false => simp [wfStep, hb, h1, h2, h3]
      exact ih _ hstep.1 hstep.2.1 hstep.2.2

/-- Once waitForExit has settled through the exit listener (timer cleared,
exit consumed, no timeout), any further events leave the outcome untouched. -/
lemma wf_preserve_exit (tm : ℚ) (r : Except RunError Unit) :
    ∀ (evs : List WFEvent) (st : WaitState), st.settled = some r → st.timerArmed = false →
      st.exitSeen = true → st.timedOut = false →
      (evs.foldl (wfStep tm) st).settled = some r ∧
      (evs.foldl (wfStep tm) st).timerArmed = false ∧
      (evs.foldl (wfStep tm) st).exitSeen = true ∧
      (evs.foldl (wfStep tm) st).timedOut = false := by
  intro evs
  induction evs with
  | nil => intro st h1 h2 h3 h4; exact ⟨h1, h2, h3, h4⟩
  | cons e rest ih =>
      intro st h1 h2 h3 h4
      rw [List.foldl_cons]
      have hstep : (wfStep tm st e).settled = some r ∧ (wfStep tm st e).timerArmed = false ∧
          (wfStep tm st e).exitSeen = true ∧ (wfStep tm st e).timedOut = false := by
        cases e with
        | timerFires => simp [wfStep, h2, h1, h3, h4]
        | exited code sig => simp [wfStep, h3, h1, h2, h4]
        | errored msg =>
            cases hb : st.errorSeen with
            | true => simp [wfStep, hb, h1, h2, h3, h4]
            | false => simp [wfStep, hb, h4, settle, h1, h2, h3]
      exact ih _ hstep.1 hstep.2.1 hstep.2.2.1 hstep.2.2.2

/-- The runAll loop splits over list append: the second half starts from the
accumulator the first half ends with, and the console outcomes concatenate. -/
lemma runAllFrom_append (xs : List (Test × Except RunError JsNum)) :
    ∀ (st : Report) (ys : List (Test × Except RunError JsNum)),
      runAllFrom st (xs ++ ys) =
        ((runAllFrom (runAllFrom st xs).1 ys).1,
          (runAllFrom st xs).2 ++ (runAllFrom (runAllFrom st xs).1 ys).2) := by
  induction xs with
  | nil => intro st ys; simp [runAllFrom]
  | cons a xs2 ih =>
      intro st ys
      cases a with
      | mk t o =>
          rw [List.cons_append]
          simp only [runAllFrom]
          rw [ih (runTestStep t o st).1 ys]
          simp

/-- Claim C1: for every captured buffer that ends in the score marker
(arbitrary prefix, then the marker with a parsable numeric part, then only
whitespace to the end), runCommand scores exactly the parsed value, unclamped;
and for every buffer admitting no such marker decomposition, it scores 0. -/
theorem c1_score_extraction :
    (∀ (p d ws : List Char) (q : ℚ), d.all isDigitOrDot = true → ws.all isJsSpace = true →
      parseFloatDD d = some q →
      runCommandScore (p ++ (litMarker ++ (d ++ (']' :: ws)))) = some q) ∧
    (∀ s : List Char,
      (∀ p d ws : List Char, s = p ++ (litMarker ++ (d ++ (']' :: ws))) →
        ¬(d.all isDigitOrDot = true ∧ ws.all isJsSpace = true)) →
      runCommandScore s = some 0) := by
  constructor
  · intro p d ws q hd hws hq
    unfold runCommandScore
    rw [execScore_complete p d ws hd hws]
    exact hq
  · intro s hno
    cases hx : execScore s with
    | none => unfold runCommandScore; rw [hx]
    | some e =>
        obtain ⟨p, ws, heq, hd, hws⟩ := execScore_some s e hx
        exact absurd ⟨hd, hws⟩ (hno p e ws heq)

/-- Witness for C1 at concrete buffers: a buffer ending in the marker line
with value 7.5 scores 15/2, and a buffer with no marker scores 0. -/
theorem c1_score_extraction_witness :
    runCommandScore ("abc\n".toList ++ (litMarker ++ ("7.5".toList ++ (']' :: "\n".toList))))
        = some (15 / 2 : ℚ) ∧
    runCommandScore ("no marker here".toList) = some 0 := by
  constructor
  · have hq : parseFloatDD ("7.5".toList)
        = some ((digitsVal ("7".toList) : ℚ) + (digitsVal ("5".toList) : ℚ) / (10 : ℚ) ^ 1) :=
      rfl
    have h7 : digitsVal ("7".toList) = 7 := by decide
    have h5 : digitsVal ("5".toList) = 5 := by decide
    rw [h7, h5] at hq
    refine c1_score_extraction.1 "abc\n".toList "7.5".toList "\n".toList (15 / 2)
      (by decide) (by decide) ?_
    rw [hq]
    norm_num
  · refine c1_score_extraction.2 "no marker here".toList ?_
    intro p d ws heq
    intro _
    have hmem : ('[' : Char) ∈ "no marker here".toList := by
      rw [heq]
      exact List.mem_append_right p (List.mem_append_left _ (by decide))
    exact absurd hmem (by decide)

/-- Claim C2: when the timer fires before any child notification, waitForExit
rejects with the timeout error carrying the configured timeout, the process
tree is killed, and every later exit or error event is ignored: the settled
outcome after any further events is still the timeout rejection. -/
theorem c2_timeout_final (tm : ℚ) (evs : List WFEvent) :
    (waitForExit tm (WFEvent.timerFires :: evs)).settled
        = some (Except.error (RunError.timeoutError tm)) ∧
    (waitForExit tm (WFEvent.timerFires :: evs)).killed = true ∧
    (waitForExit tm (WFEvent.timerFires :: evs)).timedOut = true := by
  have h0 : wfStep tm initWait WFEvent.timerFires =
      { timedOut := true, timerArmed := false, exitSeen := false, errorSeen := false,
        settled := some (Except.error (RunError.timeoutError tm)), killed := true } := rfl
  unfold waitForExit
  rw [List.foldl_cons, h0]
  have hres := wf_preserve_timeout tm (Except.error (RunError.timeoutError tm)) evs
    { timedOut := true, timerArmed := false, exitSeen := false, errorSeen := false,
      settled := some (Except.error (RunError.timeoutError tm)), killed := true } rfl rfl rfl
  exact ⟨hres.2.1, hres.2.2, hres.1⟩

/-- Claim C5: when the child exit arrives first, the timer is cancelled; exit
code 0 settles the wait as a resolution, so runCommand goes on to score the
captured buffer, and any non-zero (or null) code settles it as the exit error
carrying that code and signal — stable under any later events. -/
theorem c5_exit_code (tm : ℚ) (code : Option ℤ) (sig : Option String) (evs : List WFEvent)
    (out : List Char) :
    (waitForExit tm (WFEvent.exited code sig :: evs)).timerArmed = false ∧
    (waitForExit tm (WFEvent.exited code sig :: evs)).settled
        = some (if code = some 0 then Except.ok ()
            else Except.error (RunError.exitError code sig)) ∧
    runCommandResult out (waitForExit tm (WFEvent.exited code sig :: evs))
        = some (if code = some 0 then Except.ok (runCommandScore out)
            else Except.error (RunError.exitError code sig)) := by
  unfold waitForExit
  rw [List.foldl_cons]
  by_cases hc : code = some 0
  · have h0 : wfStep tm initWait (WFEvent.exited code sig) =
        { timedOut := false, timerArmed := false, exitSeen := true, errorSeen := false,
          settled := some (Except.ok ()), killed := false } := by
      simp [wfStep, initWait, settle, hc]
    rw [h0]
    have hres := wf_preserve_exit tm (Except.ok ()) evs
      { timedOut := false, timerArmed := false, exitSeen := true, errorSeen := false,
        settled := some (Except.ok ()), killed := false } rfl rfl rfl rfl
    refine ⟨hres.2.1, ?_, ?_⟩
    · rw [hres.1]; simp [hc]
    · unfold runCommandResult; rw [hres.1]; simp [hc]
  · have h0 : wfStep tm initWait (WFEvent.exited code sig) =
        { timedOut := false, timerArmed := false, exitSeen := true, errorSeen := false,
          settled := some (Except.error (RunError.exitError code sig)), killed := false } := by
      simp [wfStep, initWait, settle, hc]
    rw [h0]
    have hres := wf_preserve_exit tm (Except.error (RunError.exitError code sig)) evs
      { timedOut := false, timerArmed := false, exitSeen := true, errorSeen := false,
        settled := some (Except.error (RunError.exitError code sig)), killed := false }
      rfl rfl rfl rfl
    refine ⟨hres.2.1, ?_, ?_⟩
    · rw [hres.1]; simp [hc]
    · unfold runCommandResult; rw [hres.1]; simp [hc]

/-- Claim C3: an error raised while executing one test is caught at the
per-test boundary of runAll — that test is reported failed with the error's
message, the accumulator keeps its points (availablePoints was already
accumulated inside the try), and the remaining tests are processed from there;
runAll stays a total function, so the error never propagates out. -/
theorem c3_error_boundary (pre post : List (Test × Except RunError JsNum)) (t : Test)
    (e : RunError) :
    runAll (pre ++ (t, Except.error e) :: post) =
      ((runAllFrom (errReport t (runAll pre).1) post).1,
        (runAll pre).2 ++ TestDisplay.failedError t.name e.message
          :: (runAllFrom (errReport t (runAll pre).1) post).2) := by
  unfold runAll
  rw [runAllFrom_append]
  simp [runAllFrom, runTestStep, errReport]

/-- Claim C4: when setup succeeds, the main phase of run receives exactly the
resolved budget minus the setup's elapsed wall-clock time floored to whole
milliseconds, unmodified; with a one-minute budget and 20 seconds of setup the
main phase gets 40000 ms, and with 70 seconds it gets the non-positive
-10000 ms untouched. -/
theorem c4_budget_propagation :
    (∀ (t : Test) (s ns : ℕ),
      (runPhases t (Except.ok ()) s ns).2
        = some (resolveTimeout t.timeout - (elapsedMs s ns : ℚ))) ∧
    elapsedMs 20 0 = 20000 ∧
    runPhases sampleTest (Except.ok ()) 20 0 = (60000, some 40000) ∧
    runPhases sampleTest (Except.ok ()) 70 0 = (60000, some (-10000)) := by
  have h60 : resolveTimeout (some 1) = 60000 := by norm_num [resolveTimeout]
  have h20 : elapsedMs 20 0 = 20000 := by
    unfold elapsedMs
    norm_num
  have h70 : elapsedMs 70 0 = 70000 := by
    unfold elapsedMs
    norm_num
  refine ⟨fun t s ns => rfl, h20, ?_, ?_⟩
  · unfold runPhases
    rw [Prod.mk.injEq]
    constructor
    · exact h60
    · show some (resolveTimeout sampleTest.timeout - (elapsedMs 20 0 : ℚ)) = some 40000
      rw [show sampleTest.timeout = some 1 from rfl, h60, h20]
      norm_num
  · unfold runPhases
    rw [Prod.mk.injEq]
    constructor
    · exact h60
    · show some (resolveTimeout sampleTest.timeout - (elapsedMs 70 0 : ℚ)) = some (-10000)
      rw [show sampleTest.timeout = some 1 from rfl, h60, h70]
      norm_num

/-- Claim C8: the setup phase always runs under the resolved budget, which is
the declared timeout in minutes times 60000 when non-zero, and 60000 ms (the
one-minute default) when the declared timeout is absent or zero. -/
theorem c8_timeout_resolution :
    (∀ (t : Test) (sres : Except RunError Unit) (s ns : ℕ),
      (runPhases t sres s ns).1 = resolveTimeout t.timeout) ∧
    resolveTimeout none = 60000 ∧
    resolveTimeout (some 0) = 60000 ∧
    (∀ v : ℚ, resolveTimeout (some v) = if v = 0 then 60000 else v * 60000) := by
  refine ⟨?_, ?_, ?_, ?_⟩
  · intro t sres s ns
    cases sres <;> rfl
  · norm_num [resolveTimeout]
  · norm_num [resolveTimeout]
  · intro v
    by_cases hv : v = 0
    · subst hv
      norm_num [resolveTimeout]
    · rw [if_neg hv]
      have hne : v * 60 * 1000 ≠ 0 :=
        mul_ne_zero (mul_ne_zero hv (by norm_num)) (by norm_num)
      have hval : resolveTimeout (some v) = v * 60 * 1000 := by
        simp [resolveTimeout, hv, hne]
      rw [hval]
      ring

/-- Claim C9: for a test with undeclared points, the strict comparison of the
extracted score against undefined is always false — even for a score of 0 —
so the test is displayed as failed and the failed flag is set. -/
theorem c9_undefined_points (name stp runc : String) (inp outp : Option String)
    (tmo : Option ℚ) (cmp : TestComparison) (s : JsNum) (st : Report) :
    scoreEqPointsB s none = false ∧
    (runTestStep ⟨name, stp, runc, inp, outp, tmo, none, cmp⟩ (Except.ok s) st).1.failed
      = true ∧
    (runTestStep ⟨name, stp, runc, inp, outp, tmo, none, cmp⟩ (Except.ok s) st).2
      = TestDisplay.failedMismatch name := by
  have hb : scoreEqPointsB s none = false := by cases s <;> rfl
  refine ⟨hb, ?_, ?_⟩ <;> simp [runTestStep, hb]

/-- Counterexample to claim C6: a buffer whose score marker sits in the middle
and is followed by non-whitespace trailing text scores 0, not the marker's
parsed value 5 — the trailing anchor of the pattern rejects it. -/
theorem c6_counterexample :
    runCommandScore ("[overall score: 5]\nmore".toList) = some 0 ∧
    runCommandScore ("[overall score: 5]\nmore".toList) ≠ some 5 := by
  constructor
  · decide
  · decide

/-- Amended claim C6: for every buffer whose only opening bracket is the
marker's (no bracket in the prefix or the trailing text) and whose trailing
text after the marker contains a non-whitespace character, score extraction
does not match the marker and returns 0: the pattern is anchored to accept
only whitespace between the closing bracket and the end of the buffer. -/
theorem c6_amended (pre d tail : List Char) (hd : d.all isDigitOrDot = true)
    (hpre : ('[' : Char) ∉ pre) (htail : ('[' : Char) ∉ tail)
    (hnws : tail.all isJsSpace = false) :
    runCommandScore (pre ++ (litMarker ++ (d ++ (']' :: tail)))) = some 0 := by
  unfold runCommandScore
  rw [execScore_mid_marker pre d tail hd hpre htail hnws]

/-- Witness for the amended C6 at a concrete buffer: a log line, the marker
with value 5, then a newline and further text. -/
theorem c6_amended_witness :
    runCommandScore ("log\n".toList ++ (litMarker ++ ("5".toList ++ (']' :: "\nmore".toList))))
      = some 0 :=
  c6_amended "log\n".toList "5".toList "\nmore".toList (by decide) (by decide) (by decide)
    (by decide)

/-- Counterexample to claim C7: for a test with absent input, runCommand
leaves the child standard input untouched — it is not closed immediately as
the claim states. -/
theorem c7_counterexample :
    stdinAction ⟨"t", "", "c", none, none, none, none, TestComparison.exact⟩
        = StdinAction.leftOpen ∧
    StdinAction.leftOpen ≠ StdinAction.closedImmediately := by
  exact ⟨rfl, by decide⟩

/-- Amended claim C7: a provided non-empty input is written to the child's
standard input and the stream is then closed; an absent or empty input leaves
the child's standard input untouched (in particular it is not closed). -/
theorem c7_amended (t : Test) :
    (∀ s : String, t.input = some s → s ≠ "" → stdinAction t = StdinAction.writeThenClose s) ∧
    ((t.input = none ∨ t.input = some "") → stdinAction t = StdinAction.leftOpen) := by
  constructor
  · intro s hin hne
    unfold stdinAction
    rw [hin]
    simp [hne]
  · intro h
    rcases h with h | h
    · unfold stdinAction
      rw [h]
    · unfold stdinAction
      rw [h]
      simp

/-- Witness for the amended C7 at concrete tests: with input "data" the input
is written and closed, and with absent input the stream is left open. -/
theorem c7_amended_witness :
    stdinAction ⟨"t", "", "c", some "data", none, none, none, TestComparison.exact⟩
        = StdinAction.writeThenClose "data" ∧
    stdinAction ⟨"t2", "", "c", none, none, none, none, TestComparison.exact⟩
        = StdinAction.leftOpen :=
  ⟨(c7_amended _).1 "data" rfl (by decide), (c7_amended _).2 (Or.inl rfl)⟩

/-- Claim C10: the numeric part of the score pattern may be empty, so a buffer
ending in the marker with no digits matches with an empty capture; parseFloat
of the empty capture is NaN, runCommand returns NaN, NaN absorbs into the
accumulated total, and a NaN total fails the positivity check, suppressing the
points summary. -/
theorem c10_empty_capture (p ws : List Char) (hws : ws.all isJsSpace = true) :
    execScore (p ++ (litMarker ++ (']' :: ws))) = some [] ∧
    parseFloatDD [] = none ∧
    runCommandScore (p ++ (litMarker ++ (']' :: ws))) = none ∧
    (∀ total : JsNum, addJs total none = none) ∧
    (∀ (t : Test) (st : Report), (runTestStep t (Except.ok none) st).1.points = none) ∧
    (∀ rep : Report, rep.points = none → finalSummary rep = none) := by
  have hexec : execScore (p ++ (litMarker ++ (']' :: ws))) = some [] := by
    have h := execScore_complete p [] ws (by decide) hws
    simpa using h
  refine ⟨hexec, rfl, ?_, ?_, ?_, ?_⟩
  · unfold runCommandScore
    rw [hexec]
    rfl
  · intro total
    cases total <;> rfl
  · intro t st
    have hb : scoreEqPointsB none t.points = false := by cases ht : t.points <;> rfl
    have ha : addJs st.points none = none := by cases hs : st.points <;> rfl
    simp [runTestStep, hb, ha]
  · intro rep h
    simp [finalSummary, jsRound, h]

/-- Witness for C10 at a concrete buffer and report: the empty-number marker
yields NaN, and a NaN total produces no points summary. -/
theorem c10_empty_capture_witness :
    runCommandScore ("x".toList ++ (litMarker ++ (']' :: "\n".toList))) = none ∧
    finalSummary ⟨none, 5, false⟩ = none := by
  have h := c10_empty_capture "x".toList "\n".toList (by decide)
  exact ⟨h.2.2.1, h.2.2.2.2.2 ⟨none, 5, false⟩ rfl⟩
